import Mathlib

/-!
Verification of the PII detection/redaction core (analyzers, maskers and the
shared-engine singleton) against its design specification.

Python text values are modelled as `List Char`; Python's `str.lower`,
`str.strip`, `str.split` and slicing are embedded below.  External engines
(Presidio analyzer/anonymizer, pytesseract OCR, pandas sampling) are
parameters of the embedded operations, as the design treats them as
external collaborators specified only at their interface boundary.
-/

abbrev Str := List Char

/-- Whitespace test used by the embedded `strip` and `split`. -/
def isWSChar (c : Char) : Bool := c.isWhitespace

/-- Python `str.lower()` (ASCII case folding). -/
def lowerStr (s : Str) : Str := s.map Char.toLower

/-- Python `str.strip()`: drop leading and trailing whitespace. -/
def trimStr (s : Str) : Str :=
  ((s.dropWhile isWSChar).reverse.dropWhile isWSChar).reverse

/-- Accumulator-based worker for `splitWS`; `acc` holds the current word
reversed. -/
def splitWSAux : Str → Str → List Str
  | [], acc => if acc = [] then [] else [acc.reverse]
  | c :: cs, acc =>
    if isWSChar c then
      if acc = [] then splitWSAux cs [] else acc.reverse :: splitWSAux cs []
    else splitWSAux cs (c :: acc)

/-- Python `str.split()` with no argument: split on runs of whitespace,
dropping empty pieces. -/
def splitWS (s : Str) : List Str := splitWSAux s []

/-- Python `a in b` on strings: `a` occurs as a contiguous substring of `b`. -/
def isSubstr (a : Str) : Str → Bool
  | [] => a == []
  | c :: bs => List.isPrefixOf a (c :: bs) || isSubstr a bs

/-- Python slicing `t[start:stop]` for non-negative bounds (clamping, and
empty when `stop ≤ start`), as used to extract a finding's text. -/
def pySlice (t : Str) (start stop : Nat) : Str := (t.drop start).take (stop - start)

/- ### Image masker: OCR position resolution (src/maskers/image_masker.py) -/

/-- Bounding box in image pixel coordinates, as produced by
`ImageMasker.find_text_positions` (`{'x':…,'y':…,'width':…,'height':…}`). -/
structure Box where
  x : Int
  y : Int
  width : Int
  height : Int
deriving DecidableEq, Repr

/-- One index of the pytesseract `image_to_data` dictionary: the word text
and its `left`/`top`/`width`/`height` entries. -/
structure OCREntry where
  text : Str
  left : Int
  top : Int
  width : Int
  height : Int
deriving DecidableEq, Repr

namespace ImageMasker

/-- The normalized target built by `find_text_positions`:
`''.join(text_to_mask.split()).lower()`. -/
def normalizeTarget (text_to_mask : Str) : Str := lowerStr (splitWS text_to_mask).flatten

/-- Source `ImageMasker.find_text_positions`: for each OCR entry, strip the word;
skip it when empty; otherwise lowercase it and emit its bounding box when
the word is a substring of the normalized target or vice versa. -/
def find_text_positions (ocr_data : List OCREntry) (text_to_mask : Str) : List Box :=
  let normalized_target := normalizeTarget text_to_mask
  ocr_data.filterMap fun e =>
    let word := trimStr e.text
    if word = [] then none
    else
      let normalized_word := lowerStr word
      if isSubstr normalized_word normalized_target ||
         isSubstr normalized_target normalized_word then
        some ⟨e.left, e.top, e.width, e.height⟩
      else none

/-- Modelled from the claim's words (for comparison with the source
function): the boxes of all OCR entries whose stripped, lowercased text is
a substring of the normalized target or conversely, with no non-emptiness
guard on the stripped word. -/
def claimedBoxesBidirectional (ocr_data : List OCREntry) (text_to_mask : Str) : List Box :=
  let normalized_target := normalizeTarget text_to_mask
  ocr_data.filterMap fun e =>
    let normalized_word := lowerStr (trimStr e.text)
    if isSubstr normalized_word normalized_target ||
       isSubstr normalized_target normalized_word then
      some ⟨e.left, e.top, e.width, e.height⟩
    else none

end ImageMasker

/- ### Text analyzers (src/analyzers/csv_analyzer.py,
optimized_pdf_analyzer.py, optimized_image_analyzer.py) -/

/-- A result object returned by the external Presidio `AnalyzerEngine`
(`entity_type`, `start`, `end`, `score`); `end` is renamed `stop` because it
is a Lean keyword.  Scores are modelled as exact rationals. -/
structure RecognizerResult where
  entity_type : Str
  start : Nat
  stop : Nat
  score : Rat
deriving DecidableEq, Repr

/-- The finding dictionary each analyzer builds from a `RecognizerResult`:
`{"entity_type": …, "text": text[start:end], "start": …, "end": …,
"score": …}`. -/
structure Finding where
  entity_type : Str
  text : Str
  start : Nat
  stop : Nat
  score : Rat
deriving DecidableEq, Repr

/-- The dictionary an analyzer appends for one engine result. -/
def mkFinding (text : Str) (r : RecognizerResult) : Finding :=
  ⟨r.entity_type, pySlice text r.start r.stop, r.start, r.stop, r.score⟩

/-- Result of one `analyze_text` call, instrumented with whether the
underlying detection engine was invoked. -/
structure AnalyzeOut where
  findings : List Finding
  engineCalled : Bool
deriving DecidableEq, Repr

/-- The external detection engine: text to Presidio results (language,
threshold and entity filter are fixed for a given engine value). -/
abbrev Engine := Str → List RecognizerResult

namespace CSVAnalyzer

/-- Source `CSVAnalyzer.analyze_text`: short-circuits to `[]` without an engine
call when the text is empty or whitespace-only (`not text or pd.isna(text)
or str(text).strip() == ''`), else maps engine results to finding dicts. -/
def analyze_text (engine : Engine) (text : Str) : AnalyzeOut :=
  if text = [] ∨ trimStr text = [] then ⟨[], false⟩
  else ⟨(engine text).map (mkFinding text), true⟩

end CSVAnalyzer

namespace OptimizedPDFAnalyzer

/-- Source `OptimizedPDFAnalyzer.analyze_text`: calls the shared engine
unconditionally (the source has no empty-text guard) and maps results to
finding dicts. -/
def analyze_text (engine : Engine) (text : Str) : AnalyzeOut :=
  ⟨(engine text).map (mkFinding text), true⟩

end OptimizedPDFAnalyzer

namespace OptimizedImageAnalyzer

/-- Source `OptimizedImageAnalyzer.analyze_text`: short-circuits to `[]` without an
engine call when the text is empty or whitespace-only (`if not text or not
text.strip()`), else maps engine results to finding dicts. -/
def analyze_text (engine : Engine) (text : Str) : AnalyzeOut :=
  if text = [] ∨ trimStr text = [] then ⟨[], false⟩
  else ⟨(engine text).map (mkFinding text), true⟩

end OptimizedImageAnalyzer

/- ### CSV dataframe redaction and sampling (src/analyzers/csv_analyzer.py) -/

/-- A pandas cell: `none` models NaN (`pd.notna` fails), `some v` a value
whose string form is `v`. -/
abbrev Cell := Option Str

/-- A pandas DataFrame: column labels in order, and rows of cells. -/
structure DataFrame where
  cols : List Str
  rows : List (List Cell)
deriving DecidableEq, Repr

/-- The external `AnonymizerEngine.anonymize(text, analyzer_results).text`. -/
abbrev Anonymizer := Str → List RecognizerResult → Str

/-- Rebuilding a `RecognizerResult` from a finding dict, as
`anonymize_dataframe` does before calling the anonymizer. -/
def findingToRR (f : Finding) : RecognizerResult := ⟨f.entity_type, f.start, f.stop, f.score⟩

namespace CSVAnalyzer

/-- One cell of the `anonymize_dataframe` loop body: NaN cells are skipped;
a cell whose text yields findings is replaced by the anonymizer's output,
any other cell is left as it is. -/
def anonymizeCell (engine : Engine) (anonymizer : Anonymizer) (cell : Cell) : Cell :=
  match cell with
  | none => none
  | some v =>
    let findings := (analyze_text engine v).findings
    if findings ≠ [] then some (anonymizer v (findings.map findingToRR)) else some v

/-- One row under `anonymize_dataframe` (the source iterates columns
outside rows, but each cell is updated independently). -/
def anonymizeRow (engine : Engine) (anonymizer : Anonymizer) (row : List Cell) : List Cell :=
  row.map (anonymizeCell engine anonymizer)

/-- Source `CSVAnalyzer.anonymize_dataframe`: copies the frame and rewrites each
non-NaN cell with findings; column labels and shape are carried over. -/
def anonymize_dataframe (engine : Engine) (anonymizer : Anonymizer) (df : DataFrame) : DataFrame :=
  ⟨df.cols, df.rows.map (anonymizeRow engine anonymizer)⟩

/-- The pandas `DataFrame.sample(n, random_state)` capability: rows, n and
the random seed to the selected rows.  External to the repository. -/
abbrev Sampler := List (List Cell) → Nat → Nat → List (List Cell)

/-- The sampling step of `CSVAnalyzer.analyze_dataframe`:
`if sample_size and len(df) > sample_size: df.sample(n=sample_size,
random_state=42)`.  Returns the rows to analyze and the `is_sampled` flag. -/
def select_rows (sample : Sampler) (rows : List (List Cell)) (sample_size : Option Nat) :
    List (List Cell) × Bool :=
  match sample_size with
  | some n => if n ≠ 0 ∧ rows.length > n then (sample rows n 42, true) else (rows, false)
  | none => (rows, false)

end CSVAnalyzer

/- ### PDF masker: re-rendering anonymized text (src/maskers/pdf_masker.py) -/

/-- Python `s.replace(target, repl)` for a one-character target. -/
def replaceChar (target : Char) (repl : Str) (s : Str) : Str :=
  s.foldr (fun c acc => if c = target then repl ++ acc else c :: acc) []

namespace PDFMasker

/-- Source `PDFMasker.escape_html_entities`: replace `<` by `&lt;`, then `>` by
`&gt;`. -/
def escape_html_entities (text : Str) : Str :=
  replaceChar '>' "&gt;".data (replaceChar '<' "&lt;".data text)

end PDFMasker

/-- Python `text.split('\n\n')`: greedy left-to-right split on the exact
two-newline separator, keeping empty pieces. -/
def splitNN : Str → List Str
  | [] => [[]]
  | '\n' :: '\n' :: rest => [] :: splitNN rest
  | c :: rest =>
    match splitNN rest with
    | [] => [[c]]
    | p :: ps => (c :: p) :: ps

/-- Python `para.split('\n')`: split on single newlines, keeping empty
pieces. -/
def splitNL : Str → List Str
  | [] => [[]]
  | '\n' :: rest => [] :: splitNL rest
  | c :: rest =>
    match splitNL rest with
    | [] => [[c]]
    | p :: ps => (c :: p) :: ps

/-- Python `sep.join(pieces)`. -/
def joinSep (sep : Str) : List Str → Str
  | [] => []
  | [w] => w
  | w :: x :: ws => w ++ sep ++ joinSep sep (x :: ws)

namespace PDFMasker

/-- Python `' '.join(line.split())`: collapse whitespace runs inside one line to
single spaces. -/
def collapse_ws (line : Str) : Str := joinSep [' '] (splitWS line)

/-- The `cleaned_para` built for one paragraph in `create_masked_pdf`:
drop blank lines, collapse whitespace in each remaining line and join the
lines with `<br/>`. -/
def cleanPara (para : Str) : Str :=
  joinSep "<br/>".data ((splitNL para).filterMap fun line =>
    if trimStr line = [] then none else some (collapse_ws line))

/-- The sequence of flowed text blocks `create_masked_pdf` emits for the
anonymized text: escape the markup characters, split into paragraphs on
`'\n\n'`, drop blank paragraphs and clean each remaining one.  (The
reportlab `Paragraph`/`Spacer` objects and page geometry are external.) -/
def create_masked_pdf_story (anonymized_text : Str) : List Str :=
  let escaped := escape_html_entities anonymized_text
  ((splitNN escaped).filter fun p => ¬ trimStr p = []).map cleanPara

end PDFMasker

/- ### Shared-engine singleton (src/analyzers/singleton_analyzers.py) -/

/-- The class-level and instance-level state of `AnalyzerSingleton`
relevant to initialization: whether `cls._instance` is set, whether
`cls._initialized` is set, whether the engine attributes are non-None, and
how many `_load_engines` warm-up attempts have run. -/
structure SingState where
  hasInstance : Bool
  initialized : Bool
  enginesLoaded : Bool
  attempts : Nat
deriving DecidableEq, Repr

/-- The fresh state of a process that has not touched the singleton. -/
def SingState.fresh : SingState := ⟨false, false, false, 0⟩

/-- Outcome of the warm-up analyze call on each successive
`_load_engines` attempt (`warmupOk k` is the fate of attempt `k`);
external engine behaviour. -/
abbrev WarmupOracle := Nat → Bool

namespace AnalyzerSingleton

/-- Source `AnalyzerSingleton._load_engines`: assigns both engine attributes, then
performs the warm-up analyze call; the returned flag is false when the
warm-up raises (the engines stay assigned, as in the source the exception
is raised after the assignments). -/
def load_engines (warmupOk : WarmupOracle) (s : SingState) : SingState × Bool :=
  ({ s with enginesLoaded := true, attempts := s.attempts + 1 }, warmupOk s.attempts)

/-- Source `AnalyzerSingleton()`: `__new__` installs `cls._instance` under the
lock, then `__init__` (when `_initialized` is still false) resets the
engine attributes to None, runs `_load_engines` and sets `_initialized`
only on success.  The flag is false when the call raised. -/
def construct (warmupOk : WarmupOracle) (s : SingState) : SingState × Bool :=
  let s1 := { s with hasInstance := true }
  if s1.initialized then (s1, true)
  else
    let s2 := { s1 with enginesLoaded := false }
    let (s3, ok) := load_engines warmupOk s2
    if ok then ({ s3 with initialized := true }, true) else (s3, false)

end AnalyzerSingleton

/-- Module-level state: the singleton class state plus whether the global
`_singleton_instance` has been assigned. -/
structure GlobalState where
  sing : SingState
  globalSet : Bool
deriving DecidableEq, Repr

/-- The fresh module state. -/
def GlobalState.fresh : GlobalState := ⟨SingState.fresh, false⟩

/-- Source `get_analyzer_singleton()`: returns the cached global when set, else
constructs the singleton; when construction raises, the global stays unset
and the exception propagates (flag false). -/
def get_analyzer_singleton (warmupOk : WarmupOracle) (g : GlobalState) : GlobalState × Bool :=
  if g.globalSet then (g, true)
  else
    let (s', ok) := AnalyzerSingleton.construct warmupOk g.sing
    if ok then (⟨s', true⟩, true) else (⟨s', g.globalSet⟩, false)

/-- A detect call through the shared engines, as `OptimizedPDFAnalyzer`
performs it: obtain the singleton (`get_analyzer_singleton`), read the
`analyzer` property (which raises `RuntimeError` when the engine attribute
is None), then run `analyze_text`.  `none` models a raised exception. -/
def detect_via_singleton (warmupOk : WarmupOracle) (engine : Engine) (g : GlobalState)
    (text : Str) : GlobalState × Option (List Finding) :=
  let (g', ok) := get_analyzer_singleton warmupOk g
  if ¬ ok then (g', none)
  else if ¬ g'.sing.enginesLoaded then (g', none)
  else (g', some (OptimizedPDFAnalyzer.analyze_text engine text).findings)

/- ### Instance identity of the singleton (`__new__` and
`get_analyzer_singleton`) -/

/-- Class state relevant to instance identity: the installed instance (as
an allocation id) and the id the next allocation would take (so `next`
also counts how many instances were ever constructed). -/
structure NewState where
  inst : Option Nat
  next : Nat
deriving DecidableEq, Repr

/-- Fresh class state: no instance allocated yet. -/
def NewState.fresh : NewState := ⟨none, 0⟩

namespace AnalyzerSingleton

/-- One sequential `AnalyzerSingleton()` identity step: `__new__` returns
the stored instance, allocating it first when absent (sequentially the
double-checked lock collapses to this). -/
def newCall (s : NewState) : NewState × Nat :=
  match s.inst with
  | some i => (s, i)
  | none => (⟨some s.next, s.next + 1⟩, s.next)

end AnalyzerSingleton

/-- The instance ids observed by `n` successive `AnalyzerSingleton()`
calls. -/
def runNewCalls : Nat → NewState → List Nat
  | 0, _ => []
  | n + 1, s =>
    let (s', i) := AnalyzerSingleton.newCall s
    i :: runNewCalls n s'

/-- Program points of one thread inside `__new__`: the unsynchronized
`cls._instance is None` check, blocking lock acquisition, the re-check
under the lock, the assignment `cls._instance = super().__new__(cls)`,
lock release, and return. -/
inductive PC where
  | fastCheck
  | acquire
  | lockedCheck
  | alloc
  | release
  | done
deriving DecidableEq, Repr

/-- Per-thread state inside `__new__` under the interleaving model. -/
structure ThreadState where
  pc : PC
  res : Option Nat
deriving DecidableEq, Repr

/-- Shared plus per-thread state for two threads (`false` and `true`)
racing through `AnalyzerSingleton.__new__`. -/
structure DCLState where
  inst : Option Nat
  next : Nat
  lockHeld : Option Bool
  thrA : ThreadState
  thrB : ThreadState
deriving DecidableEq, Repr

/-- Both threads about to enter `__new__` on a fresh class. -/
def DCLState.fresh : DCLState := ⟨none, 0, none, ⟨.fastCheck, none⟩, ⟨.fastCheck, none⟩⟩

/-- One atomic step of thread `false` through `__new__`.  A thread waiting
on a lock held by the other thread, or already returned, leaves the state
unchanged. -/
def stepA (st : DCLState) : DCLState :=
  match st.thrA.pc with
  | .fastCheck =>
    match st.inst with
    | some i => { st with thrA := { st.thrA with pc := .done, res := some i } }
    | none => { st with thrA := { st.thrA with pc := .acquire } }
  | .acquire =>
    match st.lockHeld with
    | some _ => st
    | none => { st with lockHeld := some false, thrA := { st.thrA with pc := .lockedCheck } }
  | .lockedCheck =>
    match st.inst with
    | some i => { st with thrA := { st.thrA with pc := .release, res := some i } }
    | none => { st with thrA := { st.thrA with pc := .alloc } }
  | .alloc =>
    { st with inst := some st.next
              next := st.next + 1
              thrA := { st.thrA with pc := .release, res := some st.next } }
  | .release => { st with lockHeld := none, thrA := { st.thrA with pc := .done } }
  | .done => st

/-- One atomic step of thread `true` through `__new__`. -/
def stepB (st : DCLState) : DCLState :=
  match st.thrB.pc with
  | .fastCheck =>
    match st.inst with
    | some i => { st with thrB := { st.thrB with pc := .done, res := some i } }
    | none => { st with thrB := { st.thrB with pc := .acquire } }
  | .acquire =>
    match st.lockHeld with
    | some _ => st
    | none => { st with lockHeld := some true, thrB := { st.thrB with pc := .lockedCheck } }
  | .lockedCheck =>
    match st.inst with
    | some i => { st with thrB := { st.thrB with pc := .release, res := some i } }
    | none => { st with thrB := { st.thrB with pc := .alloc } }
  | .alloc =>
    { st with inst := some st.next
              next := st.next + 1
              thrB := { st.thrB with pc := .release, res := some st.next } }
  | .release => { st with lockHeld := none, thrB := { st.thrB with pc := .done } }
  | .done => st

/-- One atomic step of the scheduled thread. -/
def stepThread (tid : Bool) (st : DCLState) : DCLState :=
  match tid with
  | false => stepA st
  | true => stepB st

/-- Run a schedule (the sequence of thread ids granted each step) from the
fresh two-thread state. -/
def runSchedule (sched : List Bool) : DCLState :=
  sched.foldl (fun st tid => stepThread tid st) DCLState.fresh

/-- Two observed results agree when both are present. -/
def resultsAgree : Option Nat → Option Nat → Bool
  | some i, some j => i == j
  | _, _ => true

/-- A thread at one of these points is inside the `with cls._lock` block. -/
def inCritical (p : PC) : Prop := p = .lockedCheck ∨ p = .alloc ∨ p = .release

/-- Inductive invariant of the double-checked-lock model: at most one
allocation has happened (`next ≤ 1` via the `inst`/`next` coupling), every
observed result is the single instance `0`, a thread inside the critical
section holds the lock, and a thread about to allocate saw `inst = none`
under the lock. -/
structure DCLInv (st : DCLState) : Prop where
  instNone : st.inst = none → st.next = 0
  instSome : ∀ i, st.inst = some i → i = 0 ∧ st.next = 1
  resA : st.thrA.res = none ∨ st.thrA.res = some 0
  resB : st.thrB.res = none ∨ st.thrB.res = some 0
  lockA : inCritical st.thrA.pc → st.lockHeld = some false
  lockB : inCritical st.thrB.pc → st.lockHeld = some true
  allocA : st.thrA.pc = .alloc → st.inst = none
  allocB : st.thrB.pc = .alloc → st.inst = none

/- ### Helper lemmas -/

theorem isSubstr_eq_true_iff (a b : Str) : isSubstr a b = true ↔ a <:+: b := by
  induction b with
  | nil => simp [isSubstr]
  | cons c bs ih =>
    simp only [isSubstr, Bool.or_eq_true, List.isPrefixOf_iff_prefix, ih,
      List.infix_cons_iff]

theorem isSubstr_nil_left (b : Str) : isSubstr [] b = true := by
  rw [isSubstr_eq_true_iff]; exact List.nil_infix

/- ### C1 and C9: the OCR position resolver -/

/-- C1 (amended): `find_text_positions` returns exactly the boxes of the
OCR entries whose stripped text is non-empty and whose stripped, lowercased
text is a substring of the whitespace-removed, lowercased target or
conversely; on OCR words JOHN at (0,0,40,10) and DOE at (45,0,40,10) with
target "John Doe" it returns both boxes. -/
theorem C1_position_resolver_bidirectional :
    (∀ (ocr_data : List OCREntry) (text_to_mask : Str) (b : Box),
      b ∈ ImageMasker.find_text_positions ocr_data text_to_mask ↔
        ∃ e ∈ ocr_data, trimStr e.text ≠ [] ∧
          (isSubstr (lowerStr (trimStr e.text)) (ImageMasker.normalizeTarget text_to_mask) ||
           isSubstr (ImageMasker.normalizeTarget text_to_mask) (lowerStr (trimStr e.text))) = true ∧
          b = ⟨e.left, e.top, e.width, e.height⟩)
    ∧ ImageMasker.find_text_positions
        [⟨"JOHN".data, 0, 0, 40, 10⟩, ⟨"DOE".data, 45, 0, 40, 10⟩] "John Doe".data =
        [⟨0, 0, 40, 10⟩, ⟨45, 0, 40, 10⟩] := by
  constructor
  · intro ocr t b
    simp only [ImageMasker.find_text_positions, List.mem_filterMap]
    constructor
    · rintro ⟨e, he, hf⟩
      by_cases h1 : trimStr e.text = []
      · rw [if_pos h1] at hf; cases hf
      · rw [if_neg h1] at hf
        by_cases h2 : (isSubstr (lowerStr (trimStr e.text)) (ImageMasker.normalizeTarget t) ||
            isSubstr (ImageMasker.normalizeTarget t) (lowerStr (trimStr e.text))) = true
        · rw [if_pos h2] at hf
          exact ⟨e, he, h1, h2, (Option.some_inj.mp hf).symm⟩
        · rw [if_neg h2] at hf; cases hf
    · rintro ⟨e, he, h1, h2, rfl⟩
      exact ⟨e, he, by rw [if_neg h1, if_pos h2]⟩
  · decide

/-- C1 fails as literally stated: an OCR entry whose text strips to the
empty string has stripped, lowercased text `""`, a substring of any
normalized target, so the claim includes its box; the source's `if word:`
guard excludes it. -/
theorem C1_counterexample :
    ImageMasker.find_text_positions [⟨[], 1, 2, 3, 4⟩] ['x'] = [] ∧
    ImageMasker.claimedBoxesBidirectional [⟨[], 1, 2, 3, 4⟩] ['x'] = [⟨1, 2, 3, 4⟩] :=
  ⟨by decide, by decide⟩

/-- C9 (amended): when the target normalizes to the empty string, the
resolver returns one box for every OCR entry whose stripped text is
non-empty (the empty target is a substring of every such word). -/
theorem C9_empty_target_masks_all_nonblank_words :
    ∀ (ocr_data : List OCREntry) (text_to_mask : Str),
      ImageMasker.normalizeTarget text_to_mask = [] →
      ImageMasker.find_text_positions ocr_data text_to_mask =
        ocr_data.filterMap (fun e =>
          if trimStr e.text = [] then none else some ⟨e.left, e.top, e.width, e.height⟩) := by
  intro ocr t ht
  unfold ImageMasker.find_text_positions
  rw [ht]
  refine List.filterMap_congr fun e _ => ?_
  by_cases h1 : trimStr e.text = [] <;> simp [h1, isSubstr_nil_left]

/-- C9 witness: a whitespace-only PII span normalizes to the empty string
and masks the (non-blank) OCR word JOHN. -/
theorem C9_witness :
    ImageMasker.normalizeTarget [' '] = [] ∧
    ImageMasker.find_text_positions [⟨"JOHN".data, 0, 0, 40, 10⟩] [' '] = [⟨0, 0, 40, 10⟩] :=
  ⟨by decide,
    (C9_empty_target_masks_all_nonblank_words [⟨"JOHN".data, 0, 0, 40, 10⟩] [' ']
      (by decide)).trans (by decide)⟩

/-- C9 fails as literally stated: the OCR word `" "` is a non-empty string,
yet with an empty target it receives no box, because it strips to empty and
the `if word:` guard skips it. -/
theorem C9_counterexample :
    ([' '] : Str) ≠ [] ∧
    ImageMasker.normalizeTarget [] = [] ∧
    ImageMasker.find_text_positions [⟨[' '], 0, 0, 4, 5⟩] [] = [] :=
  ⟨by decide, by decide, by decide⟩

/- ### C4 and C10: analyze_text variants -/

/-- Any finding built by mapping `mkFinding` carries the slice of the
analyzed text between its own offsets. -/
theorem text_of_mem_map_mkFinding {text : Str} {rs : List RecognizerResult} {f : Finding}
    (h : f ∈ rs.map (mkFinding text)) : f.text = pySlice text f.start f.stop := by
  rcases List.mem_map.mp h with ⟨r, _, rfl⟩
  rfl

/-- C4 (amended): for empty or whitespace-only text, the CSV and image
analyzers return `[]` without invoking the engine; the PDF analyzer has no
such short-circuit and invokes the engine on every call. -/
theorem C4_empty_text_short_circuit :
    ∀ (engine : Engine) (text : Str), (text = [] ∨ trimStr text = []) →
      CSVAnalyzer.analyze_text engine text = ⟨[], false⟩ ∧
      OptimizedImageAnalyzer.analyze_text engine text = ⟨[], false⟩ ∧
      (OptimizedPDFAnalyzer.analyze_text engine text).engineCalled = true := by
  intro e t ht
  refine ⟨?_, ?_, rfl⟩
  · unfold CSVAnalyzer.analyze_text
    rw [if_pos ht]
  · unfold OptimizedImageAnalyzer.analyze_text
    rw [if_pos ht]

/-- C4 witness: on the whitespace-only text `" "` the CSV and image
analyzers short-circuit while the PDF analyzer still calls the engine. -/
theorem C4_witness :
    ((" ".data : Str) = [] ∨ trimStr " ".data = []) ∧
    CSVAnalyzer.analyze_text (fun _ => []) " ".data = ⟨[], false⟩ ∧
    OptimizedImageAnalyzer.analyze_text (fun _ => []) " ".data = ⟨[], false⟩ ∧
    (OptimizedPDFAnalyzer.analyze_text (fun _ => []) " ".data).engineCalled = true := by
  have h := C4_empty_text_short_circuit (fun _ => []) " ".data (Or.inr (by decide))
  exact ⟨Or.inr (by decide), h.1, h.2.1, h.2.2⟩

/-- C4 fails as stated for the PDF analyzer: on the empty text its
`analyze_text` invokes the engine and returns whatever the engine reports
instead of short-circuiting to `[]`. -/
theorem C4_counterexample :
    (OptimizedPDFAnalyzer.analyze_text (fun _ => [⟨"X".data, 0, 0, 1⟩]) []).engineCalled = true ∧
    (OptimizedPDFAnalyzer.analyze_text (fun _ => [⟨"X".data, 0, 0, 1⟩]) []).findings ≠ [] :=
  ⟨rfl, by decide⟩

/-- C10: every finding returned by any of the three `analyze_text`
variants has its `text` field equal to the slice of the analyzed text
between its `start` and `end` offsets. -/
theorem C10_finding_text_is_slice :
    ∀ (engine : Engine) (text : Str) (f : Finding),
      (f ∈ (CSVAnalyzer.analyze_text engine text).findings ∨
       f ∈ (OptimizedPDFAnalyzer.analyze_text engine text).findings ∨
       f ∈ (OptimizedImageAnalyzer.analyze_text engine text).findings) →
      f.text = pySlice text f.start f.stop := by
  intro e t f hf
  rcases hf with hf | hf | hf
  · unfold CSVAnalyzer.analyze_text at hf
    by_cases ht : t = [] ∨ trimStr t = []
    · rw [if_pos ht] at hf; cases hf
    · rw [if_neg ht] at hf; exact text_of_mem_map_mkFinding hf
  · exact text_of_mem_map_mkFinding hf
  · unfold OptimizedImageAnalyzer.analyze_text at hf
    by_cases ht : t = [] ∨ trimStr t = []
    · rw [if_pos ht] at hf; cases hf
    · rw [if_neg ht] at hf; exact text_of_mem_map_mkFinding hf

/-- C10 witness: a concrete engine result at offsets 1..2 of `"abc"` yields
a finding whose text is the slice `"b"`. -/
theorem C10_witness :
    (⟨"X".data, "b".data, 1, 2, 1⟩ : Finding) ∈
      (CSVAnalyzer.analyze_text (fun _ => [⟨"X".data, 1, 2, 1⟩]) "abc".data).findings ∧
    (⟨"X".data, "b".data, 1, 2, 1⟩ : Finding).text = pySlice "abc".data 1 2 :=
  ⟨by decide,
    C10_finding_text_is_slice (fun _ => [⟨"X".data, 1, 2, 1⟩]) "abc".data _ (Or.inl (by decide))⟩

/- ### C2, C6 and C8: CSV redaction and sampling -/

/-- C2 (amended): `anonymize_dataframe` processes every row (the sampling
of `analyze_dataframe` is not consulted), and a row is carried over
identically exactly as far as its cells yield no findings: NaN cells and
cells whose text yields no findings are untouched. -/
theorem C2_redaction_row_frame :
    ∀ (engine : Engine) (anonymizer : Anonymizer) (df : DataFrame),
      (CSVAnalyzer.anonymize_dataframe engine anonymizer df).rows.length = df.rows.length ∧
      (∀ i : Nat, (CSVAnalyzer.anonymize_dataframe engine anonymizer df).rows[i]? =
        (df.rows[i]?).map (CSVAnalyzer.anonymizeRow engine anonymizer)) ∧
      (∀ row : List Cell, (∀ v : Str, some v ∈ row → (CSVAnalyzer.analyze_text engine v).findings = []) →
        CSVAnalyzer.anonymizeRow engine anonymizer row = row) := by
  intro e a df
  refine ⟨by simp [CSVAnalyzer.anonymize_dataframe], ?_, ?_⟩
  · intro i
    simp [CSVAnalyzer.anonymize_dataframe, List.getElem?_map]
  · intro row hrow
    unfold CSVAnalyzer.anonymizeRow
    have h : ∀ c ∈ row, CSVAnalyzer.anonymizeCell e a c = c := by
      intro c hc
      cases c with
      | none => rfl
      | some v =>
        have hv := hrow v hc
        unfold CSVAnalyzer.anonymizeCell
        simp [hv]
    exact (List.map_congr_left h).trans (List.map_id row)

/-- C2 witness: a row whose only cell yields no findings is preserved. -/
theorem C2_witness :
    (∀ v : Str, some v ∈ [some "x".data, (none : Cell)] → (CSVAnalyzer.analyze_text (fun _ => []) v).findings = []) ∧
    CSVAnalyzer.anonymizeRow (fun _ => []) (fun _ _ => "*".data) [some "x".data, (none : Cell)] =
      [some "x".data, (none : Cell)] := by
  have hv : ∀ v : Str, some v ∈ [some "x".data, (none : Cell)] →
      (CSVAnalyzer.analyze_text (fun _ => []) v).findings = [] := by
    intro v hv
    have h : v = "x".data := by simpa using hv
    subst h
    decide
  exact ⟨hv, (C2_redaction_row_frame (fun _ => []) (fun _ _ => "*".data) ⟨[], []⟩).2.2
    [some "x".data, (none : Cell)] hv⟩

/-- C2 fails as stated: with two PII-bearing rows and `sample_size = 1`
(smaller than the row count), `anonymize_dataframe` rewrites both rows, so
whichever single row the deterministic sample selects, the unsampled row is
not identical to its input. -/
theorem C2_counterexample :
    (CSVAnalyzer.anonymize_dataframe
      (fun t => if t = "a".data then [⟨"X".data, 0, 1, 1⟩] else [])
      (fun _ _ => "*".data)
      ⟨["c".data], [[some "a".data], [some "a".data]]⟩).rows =
      [[some "*".data], [some "*".data]] ∧
    [[some ("*".data : Str)], [some "*".data]] ≠ [[some "a".data], [some "a".data]] :=
  ⟨by decide, by decide⟩

/-- C6: rows are sampled only when the row count strictly exceeds the
sample size; the sample is drawn with the fixed seed 42; and the selection
depends only on the sampler's behaviour at seed 42, so repeated runs on the
same table select the same rows. -/
theorem C6_sampling_deterministic :
    ∀ (sample : CSVAnalyzer.Sampler) (rows : List (List Cell)) (sample_size : Option Nat),
      ((CSVAnalyzer.select_rows sample rows sample_size).2 = true →
        ∃ n, sample_size = some n ∧ rows.length > n) ∧
      (∀ n, sample_size = some n → (CSVAnalyzer.select_rows sample rows sample_size).2 = true →
        (CSVAnalyzer.select_rows sample rows sample_size).1 = sample rows n 42) ∧
      (∀ sample2 : CSVAnalyzer.Sampler, (∀ r n, sample2 r n 42 = sample r n 42) →
        CSVAnalyzer.select_rows sample2 rows sample_size =
          CSVAnalyzer.select_rows sample rows sample_size) := by
  intro s rows ss
  refine ⟨?_, ?_, ?_⟩
  · intro h
    cases ss with
    | none => simp [CSVAnalyzer.select_rows] at h
    | some n =>
      refine ⟨n, rfl, ?_⟩
      by_cases hc : n ≠ 0 ∧ rows.length > n
      · exact hc.2
      · simp [CSVAnalyzer.select_rows, if_neg hc] at h
  · intro n hn h
    subst hn
    by_cases hc : n ≠ 0 ∧ rows.length > n
    · simp [CSVAnalyzer.select_rows, if_pos hc]
    · simp [CSVAnalyzer.select_rows, if_neg hc] at h
  · intro s2 hs
    cases ss with
    | none => rfl
    | some n =>
      by_cases hc : n ≠ 0 ∧ rows.length > n
      · simp [CSVAnalyzer.select_rows, if_pos hc, hs]
      · simp [CSVAnalyzer.select_rows, if_neg hc]

/-- C6 witness: three rows with sample size 2 get sampled, at seed 42, and
a sampler agreeing at seed 42 yields the same selection. -/
theorem C6_witness :
    (∃ n, (some 2 : Option Nat) = some n ∧ [[(none : Cell)], [none], [none]].length > n) ∧
    (CSVAnalyzer.select_rows (fun r n _ => r.take n) [[(none : Cell)], [none], [none]] (some 2)).1 =
      (fun (r : List (List Cell)) (n _ : Nat) => r.take n) [[(none : Cell)], [none], [none]] 2 42 ∧
    CSVAnalyzer.select_rows (fun r n _ => r.take n) [[(none : Cell)], [none], [none]] (some 2) =
      CSVAnalyzer.select_rows (fun r n _ => r.take n) [[(none : Cell)], [none], [none]] (some 2) := by
  have h := C6_sampling_deterministic (fun r n _ => r.take n) [[(none : Cell)], [none], [none]] (some 2)
  exact ⟨h.1 (by decide), h.2.1 2 rfl (by decide), h.2.2 (fun r n _ => r.take n) (fun _ _ => rfl)⟩

/-- C8: CSV redaction preserves the column labels in order, the row count
and every row's width; the output rows are the input rows transformed
cellwise. -/
theorem C8_redaction_preserves_shape :
    ∀ (engine : Engine) (anonymizer : Anonymizer) (df : DataFrame),
      (CSVAnalyzer.anonymize_dataframe engine anonymizer df).cols = df.cols ∧
      (CSVAnalyzer.anonymize_dataframe engine anonymizer df).rows.length = df.rows.length ∧
      (∀ i : Nat, ((CSVAnalyzer.anonymize_dataframe engine anonymizer df).rows[i]?).map List.length =
        (df.rows[i]?).map List.length) := by
  intro e a df
  refine ⟨rfl, by simp [CSVAnalyzer.anonymize_dataframe], ?_⟩
  intro i
  simp only [CSVAnalyzer.anonymize_dataframe, List.getElem?_map]
  cases df.rows[i]? with
  | none => rfl
  | some row => simp [CSVAnalyzer.anonymizeRow]

/- ### C5: the PDF re-render pipeline -/

theorem replaceChar_cons (d : Char) (repl : Str) (x : Char) (s : Str) :
    replaceChar d repl (x :: s) =
      if x = d then repl ++ replaceChar d repl s else x :: replaceChar d repl s := rfl

theorem not_mem_replaceChar_self {d : Char} {repl : Str} (h : d ∉ repl) :
    ∀ s : Str, d ∉ replaceChar d repl s := by
  intro s
  induction s with
  | nil => simp [replaceChar]
  | cons x s ih =>
    rw [replaceChar_cons]
    by_cases hx : x = d
    · rw [if_pos hx]
      simp only [List.mem_append]
      rintro (hc | hc)
      · exact h hc
      · exact ih hc
    · rw [if_neg hx]
      simp only [List.mem_cons]
      rintro (hc | hc)
      · exact hx (hc ▸ rfl)
      · exact ih hc

theorem not_mem_replaceChar_other {c d : Char} {repl : Str} (h : c ∉ repl) :
    ∀ {s : Str}, c ∉ s → c ∉ replaceChar d repl s := by
  intro s hs
  induction s with
  | nil => simp [replaceChar]
  | cons x s ih =>
    have hxc : c ≠ x := fun hcx => hs (hcx ▸ List.mem_cons_self x s)
    have hs' : c ∉ s := fun hc => hs (List.mem_cons_of_mem x hc)
    rw [replaceChar_cons]
    by_cases hx : x = d
    · rw [if_pos hx]
      simp only [List.mem_append]
      rintro (hc | hc)
      · exact h hc
      · exact ih hs' hc
    · rw [if_neg hx]
      simp only [List.mem_cons]
      rintro (hc | hc)
      · exact hxc hc
      · exact ih hs' hc

theorem escape_no_angle_brackets (t : Str) :
    '<' ∉ PDFMasker.escape_html_entities t ∧ '>' ∉ PDFMasker.escape_html_entities t := by
  unfold PDFMasker.escape_html_entities
  constructor
  · exact not_mem_replaceChar_other (by decide)
      (not_mem_replaceChar_self (by decide) t)
  · exact not_mem_replaceChar_self (by decide) _

/-- Every word produced by `splitWS` is non-empty and free of whitespace
characters (stated for the worker with its accumulator invariant). -/
theorem splitWSAux_sound (s : Str) :
    ∀ acc, (∀ c ∈ acc, isWSChar c = false) →
      ∀ w ∈ splitWSAux s acc, w ≠ [] ∧ ∀ c ∈ w, isWSChar c = false := by
  induction s with
  | nil =>
    intro acc hacc w hw
    by_cases h : acc = []
    · simp [splitWSAux, h] at hw
    · simp only [splitWSAux, if_neg h, List.mem_singleton] at hw
      subst hw
      refine ⟨by simpa using h, fun c hc => hacc c (by simpa using hc)⟩
  | cons c cs ih =>
    intro acc hacc w hw
    simp only [splitWSAux] at hw
    by_cases hws : isWSChar c = true
    · rw [if_pos hws] at hw
      by_cases ha : acc = []
      · rw [if_pos ha] at hw
        exact ih [] (by simp) w hw
      · rw [if_neg ha] at hw
        rcases List.mem_cons.mp hw with rfl | hw'
        · refine ⟨by simpa using ha, fun d hd => hacc d (by simpa using hd)⟩
        · exact ih [] (by simp) w hw'
    · rw [if_neg hws] at hw
      refine ih (c :: acc) ?_ w hw
      intro d hd
      rcases List.mem_cons.mp hd with rfl | hd'
      · simpa using hws
      · exact hacc d hd'

theorem splitWSAux_append_nonws {w : Str} (hw : ∀ c ∈ w, isWSChar c = false) :
    ∀ (t acc : Str), splitWSAux (w ++ t) acc = splitWSAux t (w.reverse ++ acc) := by
  induction w with
  | nil => intro t acc; simp
  | cons c w' ih =>
    intro t acc
    have hc : isWSChar c = false := hw c (List.mem_cons_self _ _)
    simp only [List.cons_append, splitWSAux, hc, Bool.false_eq_true, if_false, List.append_eq]
    rw [ih (fun d hd => hw d (List.mem_cons_of_mem _ hd)) t (c :: acc)]
    simp [List.append_assoc]

theorem splitWS_single_word {w : Str} (hne : w ≠ []) (hw : ∀ c ∈ w, isWSChar c = false) :
    splitWS w = [w] := by
  have h := splitWSAux_append_nonws hw [] []
  rw [List.append_nil] at h
  rw [splitWS, h]
  have hr : w.reverse ++ [] ≠ [] := by simpa using hne
  simp only [splitWSAux, if_neg hr]
  simp

theorem splitWS_word_cons {w : Str} (rest : Str) (hne : w ≠ [])
    (hw : ∀ c ∈ w, isWSChar c = false) :
    splitWS (w ++ ' ' :: rest) = w :: splitWS rest := by
  rw [splitWS, splitWSAux_append_nonws hw]
  have hsp : isWSChar ' ' = true := rfl
  have hr : w.reverse ++ [] ≠ [] := by simpa using hne
  simp only [splitWSAux, hsp, if_pos, if_neg hr]
  simp [splitWS]

theorem splitWS_joinSep_words (ws : List Str)
    (h : ∀ w ∈ ws, w ≠ [] ∧ ∀ c ∈ w, isWSChar c = false) :
    splitWS (joinSep [' '] ws) = ws := by
  induction ws with
  | nil => rfl
  | cons w ws ih =>
    cases ws with
    | nil =>
      simp only [joinSep]
      exact splitWS_single_word (h w (List.mem_singleton_self w)).1
        (h w (List.mem_singleton_self w)).2
    | cons x ws' =>
      have hw := h w (List.mem_cons_self _ _)
      simp only [joinSep]
      rw [List.append_assoc, List.singleton_append,
        splitWS_word_cons _ hw.1 hw.2]
      have : splitWS (joinSep [' '] (x :: ws')) = x :: ws' := by
        have := ih (fun v hv => h v (List.mem_cons_of_mem _ hv))
        simpa [joinSep] using this
      rw [show joinSep [' '] (x :: ws') = joinSep [' '] (x :: ws') from rfl, this]

theorem splitWS_collapse (line : Str) :
    splitWS (PDFMasker.collapse_ws line) = splitWS line := by
  unfold PDFMasker.collapse_ws
  rw [splitWS_joinSep_words (splitWS line) (splitWSAux_sound line [] (by simp))]

theorem mem_joinSep_space {ws : List Str}
    (hws : ∀ w ∈ ws, ∀ c ∈ w, isWSChar c = false) :
    ∀ c ∈ joinSep [' '] ws, isWSChar c = true → c = ' ' := by
  induction ws with
  | nil => simp [joinSep]
  | cons w ws ih =>
    cases ws with
    | nil =>
      intro c hc hcw
      exact absurd (hws w (List.mem_singleton_self w) c (by simpa [joinSep] using hc))
        (by simp [hcw])
    | cons x ws' =>
      intro c hc hcw
      simp only [joinSep, List.append_assoc, List.singleton_append, List.mem_append,
        List.mem_cons] at hc
      rcases hc with hc | hc | hc
      · exact absurd (hws w (List.mem_cons_self _ _) c hc) (by simp [hcw])
      · exact hc
      · exact ih (fun v hv => hws v (List.mem_cons_of_mem _ hv)) c (by simpa [joinSep] using hc) hcw

theorem collapse_ws_whitespace (line : Str) :
    ∀ c ∈ PDFMasker.collapse_ws line, isWSChar c = true → c = ' ' :=
  mem_joinSep_space fun w hw c hc => (splitWSAux_sound line [] (by simp) w hw).2 c hc

/-- C5: the PDF re-render escapes the markup-significant angle brackets,
splits the escaped text on blank-line (`'\n\n'`) paragraph breaks, drops
empty or whitespace-only paragraphs, and emits each remaining paragraph as
one block in which blank lines are dropped, kept lines are joined by
`<br/>` (preserving single line breaks) and each line's internal
whitespace runs are collapsed to single spaces (the line's words are
unchanged and its only remaining whitespace is the single space). -/
theorem C5_pdf_rerender_pipeline :
    ∀ t : Str,
      PDFMasker.create_masked_pdf_story t =
        ((splitNN (PDFMasker.escape_html_entities t)).filter fun p => ¬ trimStr p = []).map
          PDFMasker.cleanPara ∧
      ('<' ∉ PDFMasker.escape_html_entities t ∧ '>' ∉ PDFMasker.escape_html_entities t) ∧
      (∀ para : Str, PDFMasker.cleanPara para =
        joinSep "<br/>".data ((splitNL para).filterMap fun line =>
          if trimStr line = [] then none else some (PDFMasker.collapse_ws line))) ∧
      (∀ line : Str, splitWS (PDFMasker.collapse_ws line) = splitWS line ∧
        ∀ c ∈ PDFMasker.collapse_ws line, isWSChar c = true → c = ' ') := by
  intro t
  exact ⟨rfl, escape_no_angle_brackets t, fun _ => rfl,
    fun line => ⟨splitWS_collapse line, collapse_ws_whitespace line⟩⟩

/-- C5 witness: a concrete anonymized text with a blank-line break, a
whitespace-only paragraph, markup characters, a double space and an
internal line break renders to the expected two blocks, and the collapse
step keeps the words of a line. -/
theorem C5_witness :
    PDFMasker.create_masked_pdf_story "a  b <x>\n\n \n\nc\nd".data =
      ((splitNN (PDFMasker.escape_html_entities "a  b <x>\n\n \n\nc\nd".data)).filter
        fun p => ¬ trimStr p = []).map PDFMasker.cleanPara ∧
    splitWS (PDFMasker.collapse_ws "a  b".data) = splitWS "a  b".data ∧
    PDFMasker.create_masked_pdf_story "a  b <x>\n\n \n\nc\nd".data =
      ["a b &lt;x&gt;".data, "c<br/>d".data] := by
  have h := C5_pdf_rerender_pipeline "a  b <x>\n\n \n\nc\nd".data
  exact ⟨h.1, ((C5_pdf_rerender_pipeline "a  b".data).2.2.2 "a  b".data).1, by decide⟩

/- ### C3: warm-up failure handling of the shared-engine singleton -/

/-- C3 (amended): if the warm-up call raises during construction, the
constructor propagates the exception and leaves the singleton
uninitialized; a construction that returns normally always delivers a
fully initialized singleton (no caller receives a half-initialized
engine); and under a persistently failing warm-up every subsequent detect
call raises (the retried initialization fails again) instead of silently
returning `[]`.  The source retries initialization on the next access —
it does not raise a dedicated `EngineNotReadyError`, which does not exist
in the source. -/
theorem C3_warmup_failure_propagates :
    ∀ (w : WarmupOracle) (s : SingState),
      (s.initialized = false → w s.attempts = false →
        (AnalyzerSingleton.construct w s).2 = false ∧
        (AnalyzerSingleton.construct w s).1.initialized = false) ∧
      ((AnalyzerSingleton.construct w s).2 = true →
        (AnalyzerSingleton.construct w s).1.initialized = true) ∧
      (∀ (g : GlobalState) (engine : Engine) (text : Str),
        (∀ k, w k = false) → g.globalSet = false → g.sing.initialized = false →
        (detect_via_singleton w engine g text).2 = none) := by
  intro w s
  refine ⟨?_, ?_, ?_⟩
  · intro h1 h2
    simp [AnalyzerSingleton.construct, AnalyzerSingleton.load_engines, h1, h2]
  · intro h
    by_cases h1 : s.initialized = true
    · simp [AnalyzerSingleton.construct, h1]
    · simp only [Bool.not_eq_true] at h1
      by_cases h2 : w s.attempts = true
      · simp [AnalyzerSingleton.construct, AnalyzerSingleton.load_engines, h1, h2]
      · simp only [Bool.not_eq_true] at h2
        simp [AnalyzerSingleton.construct, AnalyzerSingleton.load_engines, h1, h2] at h
  · intro g e t hw hg hi
    simp [detect_via_singleton, get_analyzer_singleton, AnalyzerSingleton.construct,
      AnalyzerSingleton.load_engines, hg, hi, hw]

/-- C3 witness: with an always-failing warm-up, construction from the
fresh state propagates the failure and leaves the singleton
uninitialized, and a subsequent detect call raises (returns no finding
list) rather than silently returning `[]`. -/
theorem C3_witness :
    ((AnalyzerSingleton.construct (fun _ => false) SingState.fresh).2 = false ∧
      (AnalyzerSingleton.construct (fun _ => false) SingState.fresh).1.initialized = false) ∧
    (detect_via_singleton (fun _ => false) (fun _ => []) GlobalState.fresh "x".data).2 = none := by
  have h := C3_warmup_failure_propagates (fun _ => false) SingState.fresh
  exact ⟨h.1 rfl rfl, h.2.2 GlobalState.fresh (fun _ => []) "x".data (fun _ => rfl) rfl rfl⟩

/-- C3 fails as stated: under a warm-up that raises on the first attempt
and succeeds afterwards, the first construction propagates the failure,
yet the very next detect call does not raise — the retried initialization
succeeds and the call returns a finding list (here `[]`, exactly the
silent empty result the claim rules out). -/
theorem C3_counterexample :
    (get_analyzer_singleton (fun k => decide (k ≠ 0)) GlobalState.fresh).2 = false ∧
    (detect_via_singleton (fun k => decide (k ≠ 0)) (fun _ => [])
      (get_analyzer_singleton (fun k => decide (k ≠ 0)) GlobalState.fresh).1 "x".data).2 =
      some [] := by
  exact ⟨rfl, rfl⟩

/- ### C7: uniqueness of the singleton instance -/

theorem newCall_of_some {s : NewState} {i : Nat} (h : s.inst = some i) :
    AnalyzerSingleton.newCall s = (s, i) := by
  unfold AnalyzerSingleton.newCall
  rw [h]

theorem runNewCalls_of_some {i : Nat} :
    ∀ (n : Nat) {s : NewState}, s.inst = some i → runNewCalls n s = List.replicate n i := by
  intro n
  induction n with
  | zero => intro s _; rfl
  | succ n ih =>
    intro s h
    simp only [runNewCalls, newCall_of_some h]
    rw [ih h]
    rfl

theorem DCLInv_fresh : DCLInv DCLState.fresh := by
  refine ⟨fun _ => rfl, ?_, Or.inl rfl, Or.inl rfl, ?_, ?_, ?_, ?_⟩ <;>
    simp [DCLState.fresh, inCritical]

theorem stepA_inv {st : DCLState} (h : DCLInv st) : DCLInv (stepA st) := by
  obtain ⟨hin, his, hra, hrb, hla, hlb, haa, hab⟩ := h
  unfold stepA
  cases hpc : st.thrA.pc with
  | fastCheck =>
    dsimp only
    cases hinst : st.inst with
    | none =>
      dsimp only
      exact ⟨fun _ => hin hinst, fun i hi => Option.noConfusion hi, hra, hrb,
        by intro hc; simp [inCritical] at hc, hlb, fun _ => rfl, fun _ => rfl⟩
    | some i =>
      dsimp only
      refine ⟨fun hx => Option.noConfusion hx, ?_, Or.inr (by rw [(his i hinst).1]), hrb,
        by intro hc; simp [inCritical] at hc, hlb, by intro hx; simp at hx, ?_⟩
      · intro j hj
        obtain rfl := Option.some.inj hj
        exact his i hinst
      · intro hc
        rw [hab hc] at hinst
        exact Option.noConfusion hinst
  | acquire =>
    dsimp only
    cases hlock : st.lockHeld with
    | some l =>
      exact ⟨hin, his, hra, hrb, hla, hlb, haa, hab⟩
    | none =>
      dsimp only
      refine ⟨hin, his, hra, hrb, fun _ => rfl, ?_, by intro hx; simp at hx, hab⟩
      intro hc
      have hx := hlb hc
      rw [hlock] at hx
      exact Option.noConfusion hx
  | lockedCheck =>
    dsimp only
    cases hinst : st.inst with
    | none =>
      dsimp only
      exact ⟨fun _ => hin hinst, fun i hi => Option.noConfusion hi, hra, hrb,
        fun _ => hla (by rw [hpc]; exact Or.inl rfl), hlb, fun _ => rfl, fun _ => rfl⟩
    | some i =>
      dsimp only
      refine ⟨fun hx => Option.noConfusion hx, ?_, Or.inr (by rw [(his i hinst).1]), hrb,
        fun _ => hla (by rw [hpc]; exact Or.inl rfl), hlb, by intro hx; simp at hx, ?_⟩
      · intro j hj
        obtain rfl := Option.some.inj hj
        exact his i hinst
      · intro hc
        rw [hab hc] at hinst
        exact Option.noConfusion hinst
  | alloc =>
    dsimp only
    have h0 : st.inst = none := haa hpc
    have hn0 : st.next = 0 := hin h0
    have hlf : st.lockHeld = some false := hla (by rw [hpc]; exact Or.inr (Or.inl rfl))
    refine ⟨fun hx => Option.noConfusion hx, ?_, Or.inr (by rw [hn0]), hrb,
      fun _ => hlf, ?_, by intro hx; simp at hx, ?_⟩
    · intro j hj
      have hj2 : j = st.next := (Option.some.inj hj).symm
      subst hj2
      exact ⟨hn0, by rw [hn0]⟩
    · intro hc
      have hx := hlb hc
      rw [hlf] at hx
      simp at hx
    · intro hc
      have hx := hlb (Or.inr (Or.inl hc))
      rw [hlf] at hx
      simp at hx
  | release =>
    dsimp only
    have hlf : st.lockHeld = some false := hla (by rw [hpc]; exact Or.inr (Or.inr rfl))
    refine ⟨hin, his, hra, hrb, by intro hc; simp [inCritical] at hc, ?_,
      by intro hx; simp at hx, hab⟩
    intro hc
    have hx := hlb hc
    rw [hlf] at hx
    simp at hx
  | done =>
    exact ⟨hin, his, hra, hrb, hla, hlb, haa, hab⟩

theorem stepB_inv {st : DCLState} (h : DCLInv st) : DCLInv (stepB st) := by
  obtain ⟨hin, his, hra, hrb, hla, hlb, haa, hab⟩ := h
  unfold stepB
  cases hpc : st.thrB.pc with
  | fastCheck =>
    dsimp only
    cases hinst : st.inst with
    | none =>
      dsimp only
      exact ⟨fun _ => hin hinst, fun i hi => Option.noConfusion hi, hra, hrb,
        hla, by intro hc; simp [inCritical] at hc, fun _ => rfl, fun _ => rfl⟩
    | some i =>
      dsimp only
      refine ⟨fun hx => Option.noConfusion hx, ?_, hra, Or.inr (by rw [(his i hinst).1]),
        hla, by intro hc; simp [inCritical] at hc, ?_, by intro hx; simp at hx⟩
      · intro j hj
        obtain rfl := Option.some.inj hj
        exact his i hinst
      · intro hc
        rw [haa hc] at hinst
        exact Option.noConfusion hinst
  | acquire =>
    dsimp only
    cases hlock : st.lockHeld with
    | some l =>
      exact ⟨hin, his, hra, hrb, hla, hlb, haa, hab⟩
    | none =>
      dsimp only
      refine ⟨hin, his, hra, hrb, ?_, fun _ => rfl, haa, by intro hx; simp at hx⟩
      intro hc
      have hx := hla hc
      rw [hlock] at hx
      exact Option.noConfusion hx
  | lockedCheck =>
    dsimp only
    cases hinst : st.inst with
    | none =>
      dsimp only
      exact ⟨fun _ => hin hinst, fun i hi => Option.noConfusion hi, hra, hrb,
        hla, fun _ => hlb (by rw [hpc]; exact Or.inl rfl), fun _ => rfl, fun _ => rfl⟩
    | some i =>
      dsimp only
      refine ⟨fun hx => Option.noConfusion hx, ?_, hra, Or.inr (by rw [(his i hinst).1]),
        hla, fun _ => hlb (by rw [hpc]; exact Or.inl rfl), ?_, by intro hx; simp at hx⟩
      · intro j hj
        obtain rfl := Option.some.inj hj
        exact his i hinst
      · intro hc
        rw [haa hc] at hinst
        exact Option.noConfusion hinst
  | alloc =>
    dsimp only
    have h0 : st.inst = none := hab hpc
    have hn0 : st.next = 0 := hin h0
    have hlt : st.lockHeld = some true := hlb (by rw [hpc]; exact Or.inr (Or.inl rfl))
    refine ⟨fun hx => Option.noConfusion hx, ?_, hra, Or.inr (by rw [hn0]),
      ?_, fun _ => hlt, ?_, by intro hx; simp at hx⟩
    · intro j hj
      have hj2 : j = st.next := (Option.some.inj hj).symm
      subst hj2
      exact ⟨hn0, by rw [hn0]⟩
    · intro hc
      have hx := hla hc
      rw [hlt] at hx
      simp at hx
    · intro hc
      have hx := hla (Or.inr (Or.inl hc))
      rw [hlt] at hx
      simp at hx
  | release =>
    dsimp only
    have hlt : st.lockHeld = some true := hlb (by rw [hpc]; exact Or.inr (Or.inr rfl))
    refine ⟨hin, his, hra, hrb, ?_, by intro hc; simp [inCritical] at hc,
      haa, by intro hx; simp at hx⟩
    intro hc
    have hx := hla hc
    rw [hlt] at hx
    simp at hx
  | done =>
    exact ⟨hin, his, hra, hrb, hla, hlb, haa, hab⟩

theorem stepThread_inv {st : DCLState} (h : DCLInv st) (tid : Bool) :
    DCLInv (stepThread tid st) := by
  cases tid
  · exact stepA_inv h
  · exact stepB_inv h

theorem runSchedule_inv (sched : List Bool) : DCLInv (runSchedule sched) := by
  suffices h : ∀ st, DCLInv st → DCLInv (sched.foldl (fun s t => stepThread t s) st) from
    h _ DCLInv_fresh
  induction sched with
  | nil => exact fun _ h => h
  | cons b bs ih => exact fun st h => ih _ (stepThread_inv h b)

/-- C7: at most one instance is ever allocated and every call observes the
same instance: sequentially, any number of `AnalyzerSingleton()` calls all
return instance `0`; and under every interleaving of two threads racing
through the double-checked `__new__`, at most one allocation happens and
the two threads never observe different instances. -/
theorem C7_singleton_instance_unique :
    (∀ n : Nat, runNewCalls n NewState.fresh = List.replicate n 0) ∧
    (∀ sched : List Bool,
      (runSchedule sched).next ≤ 1 ∧
      resultsAgree (runSchedule sched).thrA.res (runSchedule sched).thrB.res = true) := by
  constructor
  · intro n
    cases n with
    | zero => rfl
    | succ n =>
      have h : AnalyzerSingleton.newCall NewState.fresh = (⟨some 0, 1⟩, 0) := rfl
      simp only [runNewCalls, h]
      rw [runNewCalls_of_some n (s := ⟨some 0, 1⟩) rfl]
      rfl
  · intro sched
    have h := runSchedule_inv sched
    constructor
    · cases hinst : (runSchedule sched).inst with
      | none => rw [h.instNone hinst]; exact Nat.zero_le 1
      | some i => rw [(h.instSome i hinst).2]
    · rcases h.resA with ha | ha <;> rcases h.resB with hb | hb <;>
        simp [resultsAgree, ha, hb]

/-- C1 witness: via the characterization, the JOHN box is resolved for the
target "John Doe" because the stripped word is non-empty and "john" is a
substring of "johndoe". -/
theorem C1_witness :
    (⟨0, 0, 40, 10⟩ : Box) ∈ ImageMasker.find_text_positions
      [⟨"JOHN".data, 0, 0, 40, 10⟩, ⟨"DOE".data, 45, 0, 40, 10⟩] "John Doe".data := by
  refine (C1_position_resolver_bidirectional.1 _ _ _).mpr ?_
  exact ⟨⟨"JOHN".data, 0, 0, 40, 10⟩, by decide, by decide, by decide, rfl⟩
